import Mathlib

/-!
Verification of the libMiniELF ELF64 decoder core.

The definitions below are a shallow embedding of `src/MiniELF.cpp` /
`include/minielf/MiniELF.hpp`: the byte-level parse pass (`parse`,
`parseSymbolsFn`), the string-table name resolution (`resolveName`), the
symbol-source selection heuristic (`selectPair`) and the lookup queries
(`getSymbolByAddress`, `getNearestSymbol`, `getSymbolByName`).  Files are
lists of byte values; the `std::ifstream` reads of the C++ code are modelled
by an explicit stream state with a position and a fail bit, and
`std::lower_bound` / `std::upper_bound` are modelled by the classic binary
search all mainstream C++ standard libraries implement.
-/

namespace MiniELF

/-- Byte strings: a file, a string table or a name is a list of byte values. -/
abbrev Bytes := List Nat

/-- Little-endian value of a byte list (first byte least significant). -/
def leVal : Bytes → Nat
  | [] => 0
  | b :: bs => b + 256 * leVal bs

/-- `n` encoded as `k` little-endian bytes (used to build concrete test files). -/
def leBytes : Nat → Nat → Bytes
  | 0, _ => []
  | k + 1, n => n % 256 :: leBytes k (n / 256)

/-- Model of the `std::ifstream` read state: underlying file bytes, current
read position and the fail bit. -/
structure Strm where
  data : Bytes
  pos : Nat
  failed : Bool
deriving Repr, DecidableEq

/-- `file.seekg(off, std::ios::beg)`: repositions unless the stream already failed. -/
def seekg (st : Strm) (off : Nat) : Strm :=
  if st.failed then st else { st with pos := off }

/-- `file.read(buf, len)` observed through `gcount`: delivers the bytes actually
read together with the updated stream; a short read sets the fail bit. -/
def sread (st : Strm) (len : Nat) : Bytes × Strm :=
  if st.failed then ([], st)
  else
    let got := (st.data.drop st.pos).take len
    if got.length = len then (got, { st with pos := st.pos + len })
    else (got, { st with pos := st.pos + got.length, failed := true })

/-- A loop of `n` fixed-size checked reads (the section-header and
program-header table loops of `MiniELF::parse`); `none` on the first short read. -/
def readRecords (st : Strm) (n w : Nat) : Option (List Bytes) × Strm :=
  match n with
  | 0 => (some [], st)
  | n + 1 =>
    let (b, st1) := sread st w
    if b.length = w then
      match readRecords st1 n w with
      | (some bs, st2) => (some (b :: bs), st2)
      | (none, st2) => (none, st2)
    else (none, st1)

/-- Little-endian field of `len` bytes at offset `off` of a fixed-size record. -/
def fieldLE (b : Bytes) (off len : Nat) : Nat := leVal ((b.drop off).take len)

/-- `Elf64_Ehdr` of `MiniELF.hpp` (64 bytes on disk, no padding). -/
structure Elf64_Ehdr where
  e_ident : Bytes
  e_type : Nat
  e_machine : Nat
  e_version : Nat
  e_entry : Nat
  e_phoff : Nat
  e_shoff : Nat
  e_flags : Nat
  e_ehsize : Nat
  e_phentsize : Nat
  e_phnum : Nat
  e_shentsize : Nat
  e_shnum : Nat
  e_shstrndx : Nat
deriving Repr, DecidableEq

/-- Decode the 64 header bytes into `Elf64_Ehdr`, field by field at the
on-disk offsets. -/
def decodeEhdr (b : Bytes) : Elf64_Ehdr where
  e_ident := b.take 16
  e_type := fieldLE b 16 2
  e_machine := fieldLE b 18 2
  e_version := fieldLE b 20 4
  e_entry := fieldLE b 24 8
  e_phoff := fieldLE b 32 8
  e_shoff := fieldLE b 40 8
  e_flags := fieldLE b 48 4
  e_ehsize := fieldLE b 52 2
  e_phentsize := fieldLE b 54 2
  e_phnum := fieldLE b 56 2
  e_shentsize := fieldLE b 58 2
  e_shnum := fieldLE b 60 2
  e_shstrndx := fieldLE b 62 2

/-- The value-initialised `Elf64_Ehdr ehdr{}` of the C++ code. -/
def zeroEhdr : Elf64_Ehdr := decodeEhdr (List.replicate 64 0)

/-- `Elf64_Shdr` of `MiniELF.hpp` (64 bytes on disk, no padding). -/
structure Elf64_Shdr where
  sh_name : Nat
  sh_type : Nat
  sh_flags : Nat
  sh_addr : Nat
  sh_offset : Nat
  sh_size : Nat
  sh_link : Nat
  sh_info : Nat
  sh_addralign : Nat
  sh_entsize : Nat
deriving Repr, DecidableEq

/-- Decode one 64-byte section-header record. -/
def decodeShdr (b : Bytes) : Elf64_Shdr where
  sh_name := fieldLE b 0 4
  sh_type := fieldLE b 4 4
  sh_flags := fieldLE b 8 8
  sh_addr := fieldLE b 16 8
  sh_offset := fieldLE b 24 8
  sh_size := fieldLE b 32 8
  sh_link := fieldLE b 40 4
  sh_info := fieldLE b 44 4
  sh_addralign := fieldLE b 48 8
  sh_entsize := fieldLE b 56 8

/-- The value-initialised `Elf64_Shdr hdr{}` of the C++ code. -/
def zeroShdr : Elf64_Shdr := decodeShdr (List.replicate 64 0)

/-- `Elf64_Sym` of `MiniELF.hpp` (24 bytes on disk, no padding). -/
structure Elf64_Sym where
  st_name : Nat
  st_info : Nat
  st_other : Nat
  st_shndx : Nat
  st_value : Nat
  st_size : Nat
deriving Repr, DecidableEq

/-- Decode one 24-byte symbol-table record. -/
def decodeSym (b : Bytes) : Elf64_Sym where
  st_name := fieldLE b 0 4
  st_info := fieldLE b 4 1
  st_other := fieldLE b 5 1
  st_shndx := fieldLE b 6 2
  st_value := fieldLE b 8 8
  st_size := fieldLE b 16 8

/-- Public `Section` value type: resolved name, address, size. -/
structure Section where
  name : Bytes
  address : Nat
  size : Nat
deriving Repr, DecidableEq

/-- Public `Symbol` value type: resolved name, address, size and the raw
low-nibble type value (`st_info & 0x0F`). -/
structure Symbol where
  name : Bytes
  address : Nat
  size : Nat
  symtype : Nat
deriving Repr, DecidableEq

/-- Name resolution against a string-table blob, as in `MiniELF::parse` /
`MiniELF::parseSymbols`: empty result when the table is empty or the offset is
out of range; otherwise `memchr` for the first null byte within the remaining
bytes, taking the bytes before it, or the empty string when no null exists. -/
def resolveName (tab : Bytes) (off : Nat) : Bytes :=
  if tab ≠ [] ∧ off < tab.length then
    let rest := tab.drop off
    match rest.findIdx? (fun b => b == 0) with
    | some j => rest.take j
    | none => []
  else []

/-- Local state of the symbol-source selection in `MiniELF::parseSymbols`:
the two candidate headers (value-initialised) and the two found flags. -/
structure SelSt where
  symtab : Elf64_Shdr
  strtab : Elf64_Shdr
  foundSym : Bool
  foundStr : Bool
deriving Repr, DecidableEq

/-- One step of the primary selection loop (`.symtab` + plain `.strtab` rule):
a `SHT_SYMTAB` (type 2) section overwrites the symbol-table candidate, else a
`SHT_STRTAB` (type 3) section whose index differs from `e_shstrndx` overwrites
the string-table candidate. -/
def primStep (ndx : Nat) (acc : SelSt) (p : Nat × Elf64_Shdr) : SelSt :=
  if p.2.sh_type = 2 then { acc with symtab := p.2, foundSym := true }
  else if p.2.sh_type = 3 ∧ p.1 ≠ ndx then { acc with strtab := p.2, foundStr := true }
  else acc

/-- One step of the fallback selection loop (`.dynsym` + linked `.dynstr` rule):
a `SHT_DYNSYM` (type 11) section overwrites the symbol-table candidate, else a
`SHT_STRTAB` section whose index differs from `e_shstrndx` and equals the
current candidate's `sh_link` overwrites the string-table candidate. -/
def dynStep (ndx : Nat) (acc : SelSt) (p : Nat × Elf64_Shdr) : SelSt :=
  if p.2.sh_type = 11 then { acc with symtab := p.2, foundSym := true }
  else if p.2.sh_type = 3 ∧ p.1 ≠ ndx ∧ acc.symtab.sh_link = p.1 then
    { acc with strtab := p.2, foundStr := true }
  else acc

/-- The primary selection loop of `MiniELF::parseSymbols` run over the indexed
section headers. -/
def selectPrimary (shdrs : List Elf64_Shdr) (ndx : Nat) : SelSt :=
  shdrs.enum.foldl (primStep ndx) ⟨zeroShdr, zeroShdr, false, false⟩

/-- The full symbol-source selection of `MiniELF::parseSymbols`: the primary
loop, then — only when it found no static symbol table — the fallback loop,
continuing from the primary loop's state. -/
def selectPair (shdrs : List Elf64_Shdr) (ndx : Nat) : SelSt :=
  let s1 := selectPrimary shdrs ndx
  if s1.foundSym then s1 else shdrs.enum.foldl (dynStep ndx) s1

/-- Zero-pad a byte list to length `n` (a value-initialised C++ buffer that a
read only partially filled), truncating anything beyond `n`. -/
def padTo (l : Bytes) (n : Nat) : Bytes :=
  l.take n ++ List.replicate (n - (l.take n).length) 0

/-- Build one public `Symbol` from a raw record and the symbol string table. -/
def buildSymbol (strtabB : Bytes) (r : Elf64_Sym) : Symbol where
  name := resolveName strtabB r.st_name
  address := r.st_value
  size := r.st_size
  symtype := r.st_info % 16

/-- `MiniELF::parseSymbols`: select the {symbol table, string table} pair; when
both were found, read the symbol records (count = `sh_size / sh_entsize`) and
the string table (both reads unchecked in the C++ code: short reads leave the
value-initialised buffers zero-filled and set the stream's fail bit), and build
the public symbols; otherwise leave the symbol list empty. -/
def parseSymbolsFn (st : Strm) (shdrs : List Elf64_Shdr) (e : Elf64_Ehdr) :
    List Symbol × Strm :=
  let sel := selectPair shdrs e.e_shstrndx
  if sel.foundSym ∧ sel.foundStr then
    let num := sel.symtab.sh_size / sel.symtab.sh_entsize
    let (got, st2) := sread (seekg st sel.symtab.sh_offset) sel.symtab.sh_size
    let content := padTo got (num * 24)
    let raws := (List.range num).map (fun i => decodeSym ((content.drop (i * 24)).take 24))
    let (got2, st4) := sread (seekg st2 sel.strtab.sh_offset) sel.strtab.sh_size
    let strtabB := padTo got2 sel.strtab.sh_size
    (raws.map (buildSymbol strtabB), st4)
  else ([], st)

/-- `MiniELF::ParseStage`. -/
inductive ParseStage where
  | Header
  | SectionHeaders
  | Symbols
  | ProgramHeaders
deriving Repr, DecidableEq

/-- The parsed-object state of a `MiniELF` instance after construction:
validity flag, built sections and symbols, the retained ELF header
(value-initialised until assigned), raw program-header records and the
failure-stage tracker. -/
structure ElfState where
  valid : Bool
  sections : List Section
  symbols : List Symbol
  elfHeader : Elf64_Ehdr
  programHeaders : List Bytes
  failureStage : ParseStage
deriving Repr, DecidableEq

/-- The state an early-`return` of `MiniELF::parse` leaves behind: nothing
populated, `_valid` still false, the given failure stage recorded. -/
def failState (stage : ParseStage) : ElfState where
  valid := false
  sections := []
  symbols := []
  elfHeader := zeroEhdr
  programHeaders := []
  failureStage := stage

/-- Header stage of `MiniELF::parse`: the checked 64-byte header read, the
magic/class validation and the section-header-presence check (`e_shoff != 0`,
`e_shnum != 0`); all failures here happen with `_failureStage == Header`. -/
def afterHeader (f : Bytes) : Option (Elf64_Ehdr × Strm) :=
  let (hb, st1) := sread ⟨f, 0, false⟩ 64
  if hb.length = 64 then
    let e := decodeEhdr hb
    if (e.e_ident.get? 0 = some 0x7f ∧ e.e_ident.get? 1 = some 0x45 ∧
        e.e_ident.get? 2 = some 0x4c ∧ e.e_ident.get? 3 = some 0x46) ∧
       e.e_ident.get? 4 = some 2 ∧ e.e_shoff ≠ 0 ∧ e.e_shnum ≠ 0 then
      some (e, st1)
    else none
  else none

/-- Section-header stage of `MiniELF::parse`: the checked per-record reads of
the section-header table at `e_shoff`, then the checked read of the
section-name string table (the header at index `e_shstrndx`); failures here
happen with `_failureStage == SectionHeaders`. -/
def afterShdrs (e : Elf64_Ehdr) (st : Strm) : Option (List Elf64_Shdr × Bytes × Strm) :=
  match readRecords (seekg st e.e_shoff) e.e_shnum 64 with
  | (none, _) => none
  | (some shB, st1) =>
    let shdrs := shB.map decodeShdr
    let shsh := shdrs.getD e.e_shstrndx zeroShdr
    let (shstrB, st2) := sread (seekg st1 shsh.sh_offset) shsh.sh_size
    if shstrB.length = shsh.sh_size then some (shdrs, shstrB, st2) else none

/-- Build the public `Section` list from the decoded headers and the
section-name string table. -/
def buildSections (shdrs : List Elf64_Shdr) (shstrB : Bytes) : List Section :=
  shdrs.map (fun sh => ⟨resolveName shstrB sh.sh_name, sh.sh_addr, sh.sh_size⟩)

/-- Tail of `MiniELF::parse` once the section headers and the section-name
string table were read: populate the sections, extract the symbols (never
itself fatal), then — only when the header declares a non-zero program-header
offset and count — the checked program-header reads; `_valid` becomes true
only at the very end. -/
def parseTail (e : Elf64_Ehdr) (shdrs : List Elf64_Shdr) (shstrB : Bytes)
    (st' : Strm) : ElfState :=
  let sections := buildSections shdrs shstrB
  let (symbols, st'') := parseSymbolsFn st' shdrs e
  if e.e_phoff ≠ 0 ∧ 0 < e.e_phnum then
    match readRecords (seekg st'' e.e_phoff) e.e_phnum 56 with
    | (none, _) =>
      { valid := false, sections := sections, symbols := symbols,
        elfHeader := e, programHeaders := [], failureStage := .ProgramHeaders }
    | (some phB, _) =>
      { valid := true, sections := sections, symbols := symbols,
        elfHeader := e, programHeaders := phB, failureStage := .ProgramHeaders }
  else
    { valid := true, sections := sections, symbols := symbols,
      elfHeader := e, programHeaders := [], failureStage := .Symbols }

/-- `MiniELF::parse` after a successful header stage: the section-header
stage, then the tail. -/
def parseFromShdrs (e : Elf64_Ehdr) (st : Strm) : ElfState :=
  match afterShdrs e st with
  | none => failState .SectionHeaders
  | some (shdrs, shstrB, st') => parseTail e shdrs shstrB st'

/-- `MiniELF::parse`: header stage, section-header stage, then the tail. -/
def parse (f : Bytes) : ElfState :=
  match afterHeader f with
  | none => failState .Header
  | some (e, st) => parseFromShdrs e st

/-- A constructed `MiniELF` object: the parsed state plus the
`_unsafeAccessEnabled` escape-hatch flag. -/
structure MiniELFObj where
  st : ElfState
  unsafeAccessEnabled : Bool
deriving Repr, DecidableEq

/-- The constructor `MiniELF::MiniELF(filepath)`: parse the file; the
escape-hatch flag starts out false (its in-class initialiser). -/
def mkMiniELF (f : Bytes) : MiniELFObj where
  st := parse f
  unsafeAccessEnabled := false

/-- `MiniELF::enableUnsafeAccess`. -/
def enableUnsafeAccess (o : MiniELFObj) : MiniELFObj :=
  { o with unsafeAccessEnabled := true }

/-- `MiniELF::isValid`: `_valid || _unsafeAccessEnabled`. -/
def isValid (o : MiniELFObj) : Bool :=
  o.st.valid || o.unsafeAccessEnabled

/-- `MiniELF::getSections`. -/
def getSections (o : MiniELFObj) : List Section := o.st.sections

/-- `MiniELF::getSymbols`. -/
def getSymbols (o : MiniELFObj) : List Symbol := o.st.symbols

/-- `ElfMetadata` of `MiniELF.hpp` (all fields default to zero). -/
structure ElfMetadata where
  mtype : Nat := 0
  machine : Nat := 0
  version : Nat := 0
  entry : Nat := 0
  flags : Nat := 0
deriving Repr, DecidableEq

/-- `MiniELF::getMetadata`: a value-initialised record when `isValid()` is
false, else the retained header's fields. -/
def getMetadata (o : MiniELFObj) : ElfMetadata :=
  if isValid o then
    { mtype := o.st.elfHeader.e_type, machine := o.st.elfHeader.e_machine,
      version := o.st.elfHeader.e_version, entry := o.st.elfHeader.e_entry,
      flags := o.st.elfHeader.e_flags }
  else {}

/-- The classic binary search shared by `std::lower_bound` and
`std::upper_bound` in libstdc++/libc++/MSVC: probe the middle of the current
window `[first, first+len)`; when the predicate holds there, continue in the
right half, else in the left half; the result is the first index at which the
predicate fails once the range is partitioned (`p`-true elements first). -/
def lbGo (fuel : Nat) (p : α → Bool) (l : List α) (first len : Nat) : Nat :=
  match fuel with
  | 0 => first
  | fuel + 1 =>
    if len = 0 then first
    else
      let half := len / 2
      match l.get? (first + half) with
      | some x =>
        if p x then lbGo fuel p l (first + half + 1) (len - half - 1)
        else lbGo fuel p l first half
      | none => first + half

/-- `std::lower_bound` over a whole list: index of the search result (the
window length also bounds the number of iterations, so it serves as fuel). -/
def lowerBoundIdx (p : α → Bool) (l : List α) : Nat := lbGo l.length p l 0 l.length

/-- The comparator `a->address < b->address` that `MiniELF::buildLookups`
hands to `std::sort`, as a non-strict ordering usable by a sort. -/
def symbolLe (a b : Symbol) : Prop := a.address ≤ b.address

instance : DecidableRel symbolLe := fun a b => Nat.decLe a.address b.address

instance : IsTotal Symbol symbolLe := ⟨fun a b => Nat.le_total a.address b.address⟩

instance : IsTrans Symbol symbolLe := ⟨fun _ _ _ => Nat.le_trans⟩

/-- `_symbolsSortedByAddr` after `MiniELF::buildLookups`: the symbols as some
permutation sorted ascending by address (`std::sort` with the address
comparator). -/
def sortedByAddr (syms : List Symbol) : List Symbol :=
  syms.insertionSort symbolLe

/-- The `uint64_t` sum `sym->address + sym->size` used by the lookup
comparators, with the wrap-around of C++ unsigned arithmetic. -/
def symEnd (s : Symbol) : Nat := (s.address + s.size) % 2 ^ 64

/-- `MiniELF::getSymbolByAddress` over the parsed symbol list:
`std::lower_bound` on the address-sorted array with the comparator
`sym->address + sym->size <= addr`, then a step back when not at the
beginning, then the containment check `address <= addr < address + size`. -/
def getSymbolByAddress (syms : List Symbol) (addr : Nat) : Option Symbol :=
  let arr := sortedByAddr syms
  let i := lowerBoundIdx (fun s => symEnd s ≤ addr) arr
  let j := if i ≠ 0 then i - 1 else i
  match arr.get? j with
  | some s => if s.address ≤ addr ∧ addr < symEnd s then some s else none
  | none => none

/-- `MiniELF::getNearestSymbol`: `std::upper_bound` on the address-sorted
array with the comparator `addr < sym->address` (the first index whose
address exceeds the query), `nullptr` at the beginning, else the entry just
before that index. -/
def getNearestSymbol (syms : List Symbol) (addr : Nat) : Option Symbol :=
  let arr := sortedByAddr syms
  let i := lowerBoundIdx (fun s => s.address ≤ addr) arr
  if i = 0 then none else arr.get? (i - 1)

/-- `_symbolByName` after `MiniELF::buildLookups`, as an association list with
the latest insertion in front: symbols with an empty name are skipped, later
symbols overwrite earlier ones with the same name. -/
def symNameMap (syms : List Symbol) : List (Bytes × Symbol) :=
  syms.foldl (fun m s => if s.name = [] then m else (s.name, s) :: m) []

/-- `MiniELF::getSymbolByName` over the parsed symbol list: hash-map lookup
in `_symbolByName`. -/
def getSymbolByName (syms : List Symbol) (name : Bytes) : Option Symbol :=
  (symNameMap syms).lookup name

/-- `MiniELF::getSymbolByAddress` on the object. -/
def getSymbolByAddressM (o : MiniELFObj) (addr : Nat) : Option Symbol :=
  getSymbolByAddress o.st.symbols addr

/-- `MiniELF::getNearestSymbol` on the object. -/
def getNearestSymbolM (o : MiniELFObj) (addr : Nat) : Option Symbol :=
  getNearestSymbol o.st.symbols addr

/-- `MiniELF::getSymbolByName` on the object. -/
def getSymbolByNameM (o : MiniELFObj) (name : Bytes) : Option Symbol :=
  getSymbolByName o.st.symbols name

/-- Assemble a 64-byte ELF64 file header for the concrete test files. -/
def mkEhdrBytes (etype machine version entry phoff shoff flags phnum shnum shstrndx : Nat) :
    Bytes :=
  [0x7f, 0x45, 0x4c, 0x46, 2, 1, 1, 0, 0, 0, 0, 0, 0, 0, 0, 0] ++
  leBytes 2 etype ++ leBytes 2 machine ++ leBytes 4 version ++ leBytes 8 entry ++
  leBytes 8 phoff ++ leBytes 8 shoff ++ leBytes 4 flags ++ leBytes 2 64 ++
  leBytes 2 56 ++ leBytes 2 phnum ++ leBytes 2 64 ++ leBytes 2 shnum ++
  leBytes 2 shstrndx

/-- Assemble a 64-byte section-header record for the concrete test files. -/
def mkShdrBytes (nm ty flags addr off size link info align entsize : Nat) : Bytes :=
  leBytes 4 nm ++ leBytes 4 ty ++ leBytes 8 flags ++ leBytes 8 addr ++
  leBytes 8 off ++ leBytes 8 size ++ leBytes 4 link ++ leBytes 4 info ++
  leBytes 8 align ++ leBytes 8 entsize

/-- Assemble a 24-byte symbol-table record for the concrete test files. -/
def mkSymBytes (nm info other shndx value size : Nat) : Bytes :=
  leBytes 4 nm ++ [info, other] ++ leBytes 2 shndx ++ leBytes 8 value ++
  leBytes 8 size

/-- Section-name string table of the test files:
`"\0.shstrtab\0.symtab\0.strtab\0"` (offsets 1, 11 and 19; 27 bytes). -/
def shstrBlob : Bytes :=
  [0] ++ [46, 115, 104, 115, 116, 114, 116, 97, 98] ++ [0] ++
  [46, 115, 121, 109, 116, 97, 98] ++ [0] ++ [46, 115, 116, 114, 116, 97, 98] ++ [0]

/-- Symbol string table of `fileA`: `"\0a\0b\0"` (`"a"` at 1, `"b"` at 3). -/
def strtabBlobA : Bytes := [0, 97, 0, 98, 0]

/-- A well-formed ELF64 test file: null section, `.shstrtab` (index 1 =
`e_shstrndx`), one `.symtab` (3 entries) and one `.strtab`; no program
headers.  Its symbols are the null symbol, `"a"` at address 16 with size 8 and
`"b"` at address 32 with size 8. -/
def fileA : Bytes :=
  mkEhdrBytes 2 62 1 0x1000 0 64 0 0 4 1 ++
  mkShdrBytes 0 0 0 0 0 0 0 0 0 0 ++
  mkShdrBytes 1 3 0 0 320 27 0 0 0 0 ++
  mkShdrBytes 11 2 0 0 347 72 3 0 0 24 ++
  mkShdrBytes 19 3 0 0 419 5 0 0 0 0 ++
  shstrBlob ++
  (mkSymBytes 0 0 0 0 0 0 ++ mkSymBytes 1 2 0 1 16 8 ++ mkSymBytes 3 2 0 1 32 8) ++
  strtabBlobA

/-- The symbol `"a"` of `fileA`. -/
def symA : Symbol := ⟨[97], 16, 8, 2⟩

/-- The symbol `"b"` of `fileA`. -/
def symB : Symbol := ⟨[98], 32, 8, 2⟩

/-- A test file whose parse fails while reading the program-header table:
header and section headers are fine (two sections, names resolved), no symbol
table, but `e_phoff = 4096` with `e_phnum = 1` points past the end of the
file. -/
def fileB : Bytes :=
  mkEhdrBytes 2 62 1 0x1000 4096 64 0 1 2 1 ++
  mkShdrBytes 0 0 0 0 0 0 0 0 0 0 ++
  mkShdrBytes 1 3 0 0 192 27 0 0 0 0 ++
  shstrBlob

/-- A test file like `fileA` whose symbol table holds `A` at address 10 with
size 20, `M` at address 12 with size 10 and a zero-size symbol `z` at
address 15 (inside `A`'s range). -/
def fileC : Bytes :=
  mkEhdrBytes 2 62 1 0x1000 0 64 0 0 4 1 ++
  mkShdrBytes 0 0 0 0 0 0 0 0 0 0 ++
  mkShdrBytes 1 3 0 0 320 27 0 0 0 0 ++
  mkShdrBytes 11 2 0 0 347 72 3 0 0 24 ++
  mkShdrBytes 19 3 0 0 419 5 0 0 0 0 ++
  shstrBlob ++
  (mkSymBytes 1 2 0 1 10 20 ++ mkSymBytes 3 2 0 1 12 10 ++ mkSymBytes 0 0 0 1 15 0) ++
  strtabBlobA

/-- The zero-size symbol `z` of `fileC`. -/
def symZ : Symbol := ⟨[], 15, 0, 0⟩

/-- The symbol `A` of `fileC` (address 10, size 20). -/
def symBigA : Symbol := ⟨[97], 10, 20, 2⟩

/-- Whatever index the binary search lands on, `getSymbolByAddress` returns a
symbol only after the explicit containment check, so any returned symbol comes
from the parsed collection and contains the queried address (with the
wrapped end address actually compared by the code). -/
theorem getSymbolByAddress_sound {syms : List Symbol} {addr : Nat} {t : Symbol}
    (h : getSymbolByAddress syms addr = some t) :
    t ∈ syms ∧ t.address ≤ addr ∧ addr < symEnd t := by
  unfold getSymbolByAddress at h
  dsimp only at h
  split at h
  case h_2 => exact absurd h (by simp)
  case h_1 s hget =>
    split at h
    case isTrue hc =>
      obtain rfl := Option.some.inj h
      exact ⟨(List.perm_insertionSort symbolLe syms).subset (List.get?_mem hget),
        hc.1, hc.2⟩
    case isFalse => exact absurd h (by simp)

/-- C9: whenever `getSymbolByAddress addr` returns a symbol rather than
not-found, the returned symbol is one of the parsed symbols and satisfies
`symbol.address ≤ addr < symbol.address + symbol.size` — the result, when
present, always contains the queried address. -/
theorem claim_C9_symbolByAddress_sound (syms : List Symbol) (addr : Nat) (t : Symbol)
    (h : getSymbolByAddress syms addr = some t) :
    t ∈ syms ∧ t.address ≤ addr ∧ addr < t.address + t.size := by
  obtain ⟨hmem, h1, h2⟩ := getSymbolByAddress_sound h
  exact ⟨hmem, h1, lt_of_lt_of_le h2 (Nat.mod_le _ _)⟩

/-- C9 witness: a concrete query on which the lookup returns a symbol. -/
theorem claim_C9_witness :
    symA ∈ [symA] ∧ symA.address ≤ 18 ∧ 18 < symA.address + symA.size :=
  claim_C9_symbolByAddress_sound [symA] 18 symA (by decide)

/-- C6 counterexample: on the validly parsed `fileC`, the zero-size symbol `z`
sits at address 15 inside the range of symbol `A` (address 10, size 20), and
`getSymbolByAddress(z.address)` returns `A` — not not-found as the claim
states. -/
theorem claim_C6_counterexample :
    (parse fileC).valid = true ∧ symZ ∈ (parse fileC).symbols ∧ symZ.size = 0 ∧
    getSymbolByAddressM (mkMiniELF fileC) symZ.address = some symBigA ∧
    symBigA ≠ symZ := by decide

/-- C6 (amended): a zero-size symbol never satisfies the strict containment
check `addr < address + size`, so `getSymbolByAddress` never returns a
zero-size symbol — not even for a query exactly equal to its address — though
the query may still resolve to a different, positive-size symbol whose range
contains that address. -/
theorem claim_C6_amended (syms : List Symbol) (addr : Nat) (s : Symbol)
    (hs : s.size = 0) : getSymbolByAddress syms addr ≠ some s := by
  intro h
  obtain ⟨-, h1, h2⟩ := getSymbolByAddress_sound h
  have hend : symEnd s ≤ s.address := by
    unfold symEnd
    rw [hs]
    exact Nat.mod_le _ _
  omega

/-- C6 amended witness: the concrete zero-size symbol of `fileC` is never the
result of the lookup at its own address. -/
theorem claim_C6_amended_witness :
    getSymbolByAddress (parse fileC).symbols symZ.address ≠ some symZ :=
  claim_C6_amended (parse fileC).symbols symZ.address symZ (by decide)

/-- C1 (code bug): `fileA` parses validly and its symbol `"b"` (address 32,
size 8) is in the parsed collection with positive size, yet
`getSymbolByAddress(32)` reports not-found: after `std::lower_bound` lands on
the containing entry, the unconditional step-back (`if (it != begin) --it`)
moves to the predecessor, whose range has already ended, so every symbol
except the first of the address-sorted array is unreachable. -/
theorem claim_C1_symbolByAddress_bug :
    (parse fileA).valid = true ∧ symB ∈ (parse fileA).symbols ∧ 0 < symB.size ∧
    getSymbolByAddressM (mkMiniELF fileA) symB.address = none := by decide

/-- Correctness of the modelled binary search on a partitioned window: when
every index below `k` satisfies `p` and every index from `k` on fails it, the
search returns `k`, for any sufficient fuel. -/
theorem lbGo_eq {α : Type} (p : α → Bool) (l : List α) (k : Nat)
    (htrue : ∀ i (hi : i < l.length), i < k → p (l.get ⟨i, hi⟩) = true)
    (hfalse : ∀ i (hi : i < l.length), k ≤ i → p (l.get ⟨i, hi⟩) = false) :
    ∀ fuel first len, len ≤ fuel → first + len ≤ l.length → first ≤ k →
      k ≤ first + len → lbGo fuel p l first len = k := by
  intro fuel
  induction fuel with
  | zero =>
    intro first len h1 _ h3 h4
    have : len = 0 := by omega
    simp only [lbGo]
    omega
  | succ fuel ih =>
    intro first len hlen hfl h3 h4
    by_cases h0 : len = 0
    · simp only [lbGo, h0, if_true]
      omega
    · have hmidlt : first + len / 2 < l.length := by
        have : len / 2 < len := Nat.div_lt_self (by omega) (by omega)
        omega
      have hget : l.get? (first + len / 2) = some (l.get ⟨first + len / 2, hmidlt⟩) := by
        rw [List.get?_eq_get hmidlt]
      simp only [lbGo, h0, if_false, hget]
      by_cases hp : p (l.get ⟨first + len / 2, hmidlt⟩) = true
      · simp only [hp, if_true]
        have hklow : first + len / 2 < k := by
          by_contra hc
          have := hfalse (first + len / 2) hmidlt (by omega)
          rw [this] at hp
          exact Bool.false_ne_true hp
        refine ih (first + len / 2 + 1) (len - len / 2 - 1) (by omega) (by omega)
          (by omega) (by omega)
      · simp only [hp, if_false]
        have hkhigh : k ≤ first + len / 2 := by
          by_contra hc
          exact hp (htrue (first + len / 2) hmidlt (by omega))
        refine ih first (len / 2) ?_ (by omega) (by omega) (by omega)
        have : len / 2 < len := Nat.div_lt_self (by omega) (by omega)
        omega

/-- C5: for every parsed symbol collection and query address, when the address
is at least the minimum symbol address, `getNearestSymbol` returns a parsed
symbol with the greatest address not exceeding the query — symbol sizes play
no role — and when the address precedes every symbol (in particular when the
collection is empty) it reports not-found. -/
theorem claim_C5_nearestSymbol (syms : List Symbol) (addr : Nat) :
    ((∃ s ∈ syms, s.address ≤ addr) →
      ∃ t, getNearestSymbol syms addr = some t ∧ t ∈ syms ∧ t.address ≤ addr ∧
        ∀ u ∈ syms, u.address ≤ addr → u.address ≤ t.address) ∧
    ((∀ s ∈ syms, addr < s.address) → getNearestSymbol syms addr = none) := by
  set arr := sortedByAddr syms with harr
  have hperm : arr.Perm syms := List.perm_insertionSort symbolLe syms
  have hsorted : List.Sorted symbolLe arr := List.sorted_insertionSort symbolLe syms
  set p : Symbol → Bool := fun s => decide (s.address ≤ addr) with hp
  set q : Symbol → Bool := fun s => decide (addr < s.address) with hq
  set k := arr.findIdx q with hk
  have hkle : k ≤ arr.length := List.findIdx_le_length q
  have htrue : ∀ i (hi : i < arr.length), i < k → p (arr.get ⟨i, hi⟩) = true := by
    intro i hi hik
    have h2 : q arr[i] = false := List.not_of_lt_findIdx hik
    rw [List.get_eq_getElem]
    simp only [q, decide_eq_false_iff_not, not_lt] at h2
    simp only [p, decide_eq_true_eq]
    exact h2
  have hfalse : ∀ i (hi : i < arr.length), k ≤ i → p (arr.get ⟨i, hi⟩) = false := by
    intro i hi hki
    have hkl : k < arr.length := lt_of_le_of_lt hki hi
    have hqk : q (arr.get ⟨k, hkl⟩) = true := by
      rw [List.get_eq_getElem]
      exact List.findIdx_getElem (w := hkl)
    have hle : (arr.get ⟨k, hkl⟩).address ≤ (arr.get ⟨i, hi⟩).address := by
      rcases Nat.eq_or_lt_of_le hki with heq | hlt
      · subst heq
        exact le_refl _
      · exact hsorted.rel_get_of_lt (a := ⟨k, hkl⟩) (b := ⟨i, hi⟩) hlt
    simp only [q, decide_eq_true_eq] at hqk
    simp only [p, decide_eq_false_iff_not, not_le]
    omega
  have hlb : lowerBoundIdx p arr = k :=
    lbGo_eq p arr k htrue hfalse arr.length 0 arr.length le_rfl (by omega) (by omega)
      (by omega)
  have hdef : getNearestSymbol syms addr =
      if lowerBoundIdx p arr = 0 then none else arr.get? (lowerBoundIdx p arr - 1) := rfl
  constructor
  · rintro ⟨s, hs, hsa⟩
    have hsarr : s ∈ arr := hperm.mem_iff.mpr hs
    obtain ⟨is, hgs⟩ := List.mem_iff_get.mp hsarr
    have hisk : (is : Nat) < k := by
      by_contra hc
      have := hfalse is is.isLt (by omega)
      rw [Fin.eta, hgs] at this
      simp [p, hsa] at this
    have hk0 : k ≠ 0 := by omega
    have hk1 : k - 1 < arr.length := by omega
    refine ⟨arr.get ⟨k - 1, hk1⟩, ?_, ?_, ?_, ?_⟩
    · rw [hdef, hlb]
      simp only [hk0, if_false]
      exact List.get?_eq_get hk1
    · exact hperm.mem_iff.mp (arr.get_mem _ _)
    · have := htrue (k - 1) hk1 (by omega)
      simpa [p] using this
    · intro u hu hua
      have huarr : u ∈ arr := hperm.mem_iff.mpr hu
      obtain ⟨iu, hgu⟩ := List.mem_iff_get.mp huarr
      have hiuk : (iu : Nat) < k := by
        by_contra hc
        have := hfalse iu iu.isLt (by omega)
        rw [Fin.eta, hgu] at this
        simp [p, hua] at this
      rcases Nat.lt_or_ge (iu : Nat) (k - 1) with hlt | hge
      · have hrel := hsorted.rel_get_of_lt (a := iu) (b := ⟨k - 1, hk1⟩) hlt
        rw [hgu] at hrel
        exact hrel
      · have hiu : (iu : Nat) = k - 1 := by omega
        have : arr.get iu = arr.get ⟨k - 1, hk1⟩ := by
          congr 1
          exact Fin.ext hiu
        rw [← hgu, this]
  · intro hall
    rw [hdef, hlb]
    have hk0 : k = 0 := by
      by_contra hc
      have h0 : 0 < arr.length := by omega
      have h1 := htrue 0 h0 (by omega)
      simp only [p, decide_eq_true_eq] at h1
      have hmem : arr.get ⟨0, h0⟩ ∈ syms := hperm.mem_iff.mp (arr.get_mem _ _)
      exact absurd h1 (by simpa using Nat.not_le_of_lt (hall _ hmem))
    simp [hk0]

/-- C5 witness: concrete nearest-symbol queries on a one-symbol collection,
one at an address past the symbol and one before it. -/
theorem claim_C5_witness :
    (∃ t, getNearestSymbol [symA] 18 = some t ∧ t ∈ [symA] ∧ t.address ≤ 18 ∧
      ∀ u ∈ [symA], u.address ≤ 18 → u.address ≤ t.address) ∧
    getNearestSymbol [symA] 5 = none :=
  ⟨(claim_C5_nearestSymbol [symA] 18).1 ⟨symA, by decide, by decide⟩,
   (claim_C5_nearestSymbol [symA] 5).2 (by decide)⟩

/-- C8: the escape-hatch flag is off on a freshly constructed object, so a
fresh object with a failed parse reports invalid; after `enableUnsafeAccess`
the object reports valid even when the parse failed; and setting the flag is
the only way an object with a failed parse can report valid. -/
theorem claim_C8_unsafeAccess (f : Bytes) (o : MiniELFObj) :
    (mkMiniELF f).unsafeAccessEnabled = false ∧
    ((parse f).valid = false → isValid (mkMiniELF f) = false) ∧
    isValid (enableUnsafeAccess o) = true ∧
    (o.st.valid = false → (isValid o = true ↔ o.unsafeAccessEnabled = true)) := by
  refine ⟨rfl, ?_, ?_, ?_⟩
  · intro h
    simp [isValid, mkMiniELF, h]
  · simp [isValid, enableUnsafeAccess]
  · intro h
    simp [isValid, h]

/-- C8 witness: the empty file fails to parse; fresh object invalid, forced
valid after enabling the escape hatch. -/
theorem claim_C8_witness :
    (mkMiniELF []).unsafeAccessEnabled = false ∧
    isValid (mkMiniELF []) = false ∧
    isValid (enableUnsafeAccess (mkMiniELF [])) = true ∧
    (isValid (mkMiniELF []) = true ↔ (mkMiniELF []).unsafeAccessEnabled = true) :=
  ⟨(claim_C8_unsafeAccess [] (mkMiniELF [])).1,
   (claim_C8_unsafeAccess [] (mkMiniELF [])).2.1 (by decide),
   (claim_C8_unsafeAccess [] (mkMiniELF [])).2.2.1,
   (claim_C8_unsafeAccess [] (mkMiniELF [])).2.2.2 (by decide)⟩

/-- Every entry of the name map built by `buildLookups` is keyed by its
symbol's own name, and that name is non-empty (empty-named symbols are
skipped at insertion). -/
theorem symNameMap_inv (syms : List Symbol) :
    ∀ e ∈ symNameMap syms, e.1 = e.2.name ∧ e.2.name ≠ [] := by
  suffices h : ∀ (l : List Symbol) (acc : List (Bytes × Symbol)),
      (∀ e ∈ acc, e.1 = e.2.name ∧ e.2.name ≠ []) →
      ∀ e ∈ l.foldl (fun m s => if s.name = [] then m else (s.name, s) :: m) acc,
        e.1 = e.2.name ∧ e.2.name ≠ [] by
    exact fun e he => h syms [] (by simp) e he
  intro l
  induction l with
  | nil => exact fun acc hacc e he => hacc e he
  | cons s l ih =>
    intro acc hacc e he
    simp only [List.foldl_cons] at he
    refine ih _ ?_ e he
    intro e' he'
    by_cases hn : s.name = []
    · rw [if_pos hn] at he'
      exact hacc e' he'
    · rw [if_neg hn] at he'
      rcases List.mem_cons.mp he' with rfl | h
      · exact ⟨rfl, hn⟩
      · exact hacc e' h

/-- A successful association-list lookup returns an entry of the list. -/
theorem lookup_some_mem {l : List (Bytes × Symbol)} {k : Bytes} {v : Symbol}
    (h : l.lookup k = some v) : (k, v) ∈ l := by
  induction l with
  | nil => simp [List.lookup] at h
  | cons e l ih =>
    obtain ⟨a, b⟩ := e
    rw [List.lookup_cons] at h
    by_cases hk : (k == a) = true
    · rw [hk] at h
      obtain rfl := Option.some.inj h
      have : k = a := by simpa using hk
      subst this
      exact List.mem_cons_self _ _
    · rw [Bool.not_eq_true] at hk
      rw [hk] at h
      exact List.mem_cons_of_mem _ (ih h)

/-- C10: symbols whose resolved name is empty are excluded from the name
index — `getSymbolByName` with the empty name always reports not-found, and
no name lookup whatsoever can return an empty-named symbol — while such
symbols still appear in the collection `getSymbols` returns. -/
theorem claim_C10_emptyName_index (o : MiniELFObj) :
    getSymbolByNameM o [] = none ∧
    ∀ s ∈ getSymbols o, s.name = [] → ∀ nm, getSymbolByNameM o nm ≠ some s := by
  constructor
  · cases h : getSymbolByNameM o [] with
    | none => rfl
    | some v =>
      exfalso
      have h' : (symNameMap o.st.symbols).lookup [] = some v := h
      have hinv := symNameMap_inv o.st.symbols _ (lookup_some_mem h')
      exact hinv.2 hinv.1.symm
  · intro s _ hname nm h
    have h' : (symNameMap o.st.symbols).lookup nm = some s := h
    have hinv := symNameMap_inv o.st.symbols _ (lookup_some_mem h')
    exact hinv.2 hname

/-- C10 witness: the parsed `fileA` contains the empty-named null symbol; the
empty-name lookup reports not-found and no lookup returns the null symbol. -/
theorem claim_C10_witness :
    getSymbolByNameM (mkMiniELF fileA) [] = none ∧
    getSymbolByNameM (mkMiniELF fileA) [98] ≠ some ⟨[], 0, 0, 0⟩ :=
  ⟨(claim_C10_emptyName_index (mkMiniELF fileA)).1,
   (claim_C10_emptyName_index (mkMiniELF fileA)).2 ⟨[], 0, 0, 0⟩ (by decide) rfl [98]⟩

/-- Taking up to the index `memchr` reports is the same as taking while the
byte is non-null. -/
theorem take_findIdx?_eq_takeWhile :
    ∀ (l : Bytes) (j : Nat), l.findIdx? (fun b => b == 0) = some j →
      l.take j = l.takeWhile (fun b => b != 0) := by
  intro l
  induction l with
  | nil => intro j h; simp [List.findIdx?] at h
  | cons a l ih =>
    intro j h
    rw [List.findIdx?_cons] at h
    by_cases ha : (a == 0) = true
    · rw [if_pos ha] at h
      obtain rfl := Option.some.inj h
      have hne : (a != 0) = false := by simpa using ha
      simp [List.takeWhile_cons, hne]
    · rw [if_neg ha] at h
      rw [List.findIdx?_succ] at h
      obtain ⟨j', hj', rfl⟩ := Option.map_eq_some'.mp h
      have hne : (a != 0) = true := by simpa using ha
      rw [List.take_succ_cons, List.takeWhile_cons, if_pos hne, ih j' hj']

/-- `memchr` finds an index whenever a null byte is present. -/
theorem findIdx?_zero_of_mem {l : Bytes} (h : (0 : Nat) ∈ l) :
    ∃ j, l.findIdx? (fun b => b == 0) = some j := by
  cases hf : l.findIdx? (fun b => b == 0) with
  | some j => exact ⟨j, rfl⟩
  | none =>
    rw [List.findIdx?_eq_none_iff] at hf
    have := hf 0 h
    simp at this

/-- C7: the name resolved for a section-header or raw symbol record is drawn
entirely from the string table (never past its boundary); it is the empty
string when the table is empty, the offset is out of range, or no null
terminator follows the offset; otherwise it is exactly the bytes from the
offset up to the first null byte; and the built Sections/Symbols carry
precisely these resolved names. -/
theorem claim_C7_nameResolution (tab : Bytes) (off : Nat) :
    (∃ t, resolveName tab off ++ t = tab.drop off) ∧
    ((tab = [] ∨ tab.length ≤ off ∨ ∀ b ∈ tab.drop off, b ≠ 0) →
      resolveName tab off = []) ∧
    ((0 : Nat) ∈ tab.drop off → off < tab.length →
      resolveName tab off = (tab.drop off).takeWhile (fun b => b != 0)) ∧
    (∀ r : Elf64_Sym, (buildSymbol tab r).name = resolveName tab r.st_name) ∧
    (∀ (sh : Elf64_Shdr) (shdrs : List Elf64_Shdr), sh ∈ shdrs →
      (⟨resolveName tab sh.sh_name, sh.sh_addr, sh.sh_size⟩ : Section) ∈
        buildSections shdrs tab) := by
  refine ⟨?_, ?_, ?_, fun r => rfl, fun sh shdrs hm => List.mem_map_of_mem _ hm⟩
  · unfold resolveName
    by_cases hc : tab ≠ [] ∧ off < tab.length
    · rw [if_pos hc]
      dsimp only
      cases hf : (tab.drop off).findIdx? (fun b => b == 0) with
      | some j => exact ⟨(tab.drop off).drop j, List.take_append_drop _ _⟩
      | none => exact ⟨tab.drop off, by simp⟩
    · rw [if_neg hc]
      exact ⟨tab.drop off, by simp⟩
  · intro h
    unfold resolveName
    rcases h with h | h | h
    · rw [if_neg (by simp [h])]
    · rw [if_neg (by omega)]
    · by_cases hc : tab ≠ [] ∧ off < tab.length
      · rw [if_pos hc]
        dsimp only
        have hnone : (tab.drop off).findIdx? (fun b => b == 0) = none := by
          rw [List.findIdx?_eq_none_iff]
          intro x hx
          simpa using h x hx
        rw [hnone]
      · rw [if_neg hc]
  · intro hmem hoff
    have htab : tab ≠ [] := by
      intro h
      rw [h] at hoff
      simp at hoff
    unfold resolveName
    rw [if_pos ⟨htab, hoff⟩]
    dsimp only
    obtain ⟨j, hj⟩ := findIdx?_zero_of_mem hmem
    rw [hj]
    exact take_findIdx?_eq_takeWhile _ j hj

/-- C7 witness: a concrete table `"\0a\0b\0"` — in-range offset resolves to
the bytes before the next null, an out-of-range offset resolves to empty. -/
theorem claim_C7_witness :
    (∃ t, resolveName [0, 97, 0, 98, 0] 1 ++ t = [97, 0, 98, 0]) ∧
    resolveName [0, 97, 0, 98, 0] 9 = [] ∧
    resolveName [0, 97, 0, 98, 0] 1 = [97] :=
  ⟨(claim_C7_nameResolution [0, 97, 0, 98, 0] 1).1,
   (claim_C7_nameResolution [0, 97, 0, 98, 0] 9).2.1 (by right; left; decide),
   by
    have := (claim_C7_nameResolution [0, 97, 0, 98, 0] 1).2.2.1 (by decide) (by decide)
    simpa using this⟩

/-- Effect of one primary-selection step on the symbol-table candidate. -/
theorem primStep_symtab (ndx : Nat) (acc : SelSt) (p : Nat × Elf64_Shdr) :
    (primStep ndx acc p).symtab = if p.2.sh_type = 2 then p.2 else acc.symtab := by
  unfold primStep
  by_cases h2 : p.2.sh_type = 2
  · simp [h2]
  · by_cases h3 : p.2.sh_type = 3 ∧ p.1 ≠ ndx
    · simp [h2, h3]
    · simp [h2, h3]

/-- Effect of one primary-selection step on the symbol-table found flag. -/
theorem primStep_foundSym (ndx : Nat) (acc : SelSt) (p : Nat × Elf64_Shdr) :
    (primStep ndx acc p).foundSym = (acc.foundSym || decide (p.2.sh_type = 2)) := by
  unfold primStep
  by_cases h2 : p.2.sh_type = 2
  · simp [h2]
  · by_cases h3 : p.2.sh_type = 3 ∧ p.1 ≠ ndx
    · simp [h2, h3]
    · simp [h2, h3]

/-- Effect of one primary-selection step on the string-table candidate. -/
theorem primStep_strtab (ndx : Nat) (acc : SelSt) (p : Nat × Elf64_Shdr) :
    (primStep ndx acc p).strtab =
      if p.2.sh_type = 3 ∧ p.1 ≠ ndx then p.2 else acc.strtab := by
  unfold primStep
  by_cases h2 : p.2.sh_type = 2
  · simp [h2]
  · by_cases h3 : p.2.sh_type = 3 ∧ p.1 ≠ ndx
    · simp [h2, h3]
    · simp [h2, h3]

/-- Effect of one primary-selection step on the string-table found flag. -/
theorem primStep_foundStr (ndx : Nat) (acc : SelSt) (p : Nat × Elf64_Shdr) :
    (primStep ndx acc p).foundStr =
      (acc.foundStr || decide (p.2.sh_type = 3 ∧ p.1 ≠ ndx)) := by
  unfold primStep
  by_cases h2 : p.2.sh_type = 2
  · simp [h2]
  · by_cases h3 : p.2.sh_type = 3 ∧ p.1 ≠ ndx
    · simp [h2, h3]
    · simp [h2, h3]

/-- A left fold that overwrites its accumulator on every element satisfying
`q` ends at the last satisfying element (or the initial value when none
satisfies). -/
theorem foldl_keep_last {α β : Type} (q : α → Prop) [DecidablePred q] (g : α → β) :
    ∀ (l : List α) (init : β),
      l.foldl (fun a x => if q x then g x else a) init =
        match (l.filter (fun x => decide (q x))).getLast? with
        | some x => g x
        | none => init := by
  intro l
  induction l with
  | nil => intro init; rfl
  | cons a l ih =>
    intro init
    rw [List.foldl_cons]
    by_cases hq : q a
    · rw [if_pos hq, ih, List.filter_cons_of_pos (by simpa using hq)]
      cases hfl : l.filter (fun x => decide (q x)) with
      | nil => simp
      | cons b t => simp [List.getLast?_cons]
    · rw [if_neg hq, ih, List.filter_cons_of_neg (by simpa using hq)]

/-- A left fold that disjoins a predicate into a flag computes `any`. -/
theorem foldl_or {α : Type} (pred : α → Bool) :
    ∀ (l : List α) (b : Bool),
      l.foldl (fun r x => r || pred x) b = (b || l.any pred) := by
  intro l
  induction l with
  | nil => intro b; simp
  | cons a l ih =>
    intro b
    rw [List.foldl_cons, ih, List.any_cons, Bool.or_assoc]

/-- The primary selection loop projected to the symbol-table candidate. -/
theorem selectPrimary_symtab (shdrs : List Elf64_Shdr) (ndx : Nat) :
    (selectPrimary shdrs ndx).symtab =
      match (shdrs.enum.filter (fun p => decide (p.2.sh_type = 2))).getLast? with
      | some p => p.2
      | none => zeroShdr := by
  have hfold : ∀ (ps : List (Nat × Elf64_Shdr)) (acc : SelSt),
      (ps.foldl (primStep ndx) acc).symtab =
        ps.foldl (fun a p => if p.2.sh_type = 2 then p.2 else a) acc.symtab := by
    intro ps
    induction ps with
    | nil => intro acc; rfl
    | cons p ps ih =>
      intro acc
      rw [List.foldl_cons, List.foldl_cons, ih, primStep_symtab]
  rw [selectPrimary, hfold,
    foldl_keep_last (fun p : Nat × Elf64_Shdr => p.2.sh_type = 2) Prod.snd]
  cases (shdrs.enum.filter (fun p => decide (p.2.sh_type = 2))).getLast? <;> rfl

/-- The primary selection loop projected to the string-table candidate. -/
theorem selectPrimary_strtab (shdrs : List Elf64_Shdr) (ndx : Nat) :
    (selectPrimary shdrs ndx).strtab =
      match (shdrs.enum.filter
          (fun p => decide (p.2.sh_type = 3 ∧ p.1 ≠ ndx))).getLast? with
      | some p => p.2
      | none => zeroShdr := by
  have hfold : ∀ (ps : List (Nat × Elf64_Shdr)) (acc : SelSt),
      (ps.foldl (primStep ndx) acc).strtab =
        ps.foldl (fun a p => if p.2.sh_type = 3 ∧ p.1 ≠ ndx then p.2 else a) acc.strtab := by
    intro ps
    induction ps with
    | nil => intro acc; rfl
    | cons p ps ih =>
      intro acc
      rw [List.foldl_cons, List.foldl_cons, ih, primStep_strtab]
  rw [selectPrimary, hfold,
    foldl_keep_last (fun p : Nat × Elf64_Shdr => p.2.sh_type = 3 ∧ p.1 ≠ ndx) Prod.snd]
  cases (shdrs.enum.filter (fun p => decide (p.2.sh_type = 3 ∧ p.1 ≠ ndx))).getLast? <;> rfl

/-- The primary selection loop projected to the found flags. -/
theorem selectPrimary_found (shdrs : List Elf64_Shdr) (ndx : Nat) :
    (selectPrimary shdrs ndx).foundSym =
      shdrs.enum.any (fun p => decide (p.2.sh_type = 2)) ∧
    (selectPrimary shdrs ndx).foundStr =
      shdrs.enum.any (fun p => decide (p.2.sh_type = 3 ∧ p.1 ≠ ndx)) := by
  constructor
  · have hfold : ∀ (ps : List (Nat × Elf64_Shdr)) (acc : SelSt),
        (ps.foldl (primStep ndx) acc).foundSym =
          ps.foldl (fun r p => r || decide (p.2.sh_type = 2)) acc.foundSym := by
      intro ps
      induction ps with
      | nil => intro acc; rfl
      | cons p ps ih =>
        intro acc
        rw [List.foldl_cons, List.foldl_cons, ih, primStep_foundSym]
    rw [selectPrimary, hfold, foldl_or]
    simp
  · have hfold : ∀ (ps : List (Nat × Elf64_Shdr)) (acc : SelSt),
        (ps.foldl (primStep ndx) acc).foundStr =
          ps.foldl (fun r p => r || decide (p.2.sh_type = 3 ∧ p.1 ≠ ndx)) acc.foundStr := by
      intro ps
      induction ps with
      | nil => intro acc; rfl
      | cons p ps ih =>
        intro acc
        rw [List.foldl_cons, List.foldl_cons, ih, primStep_foundStr]
    rw [selectPrimary, hfold, foldl_or]
    simp

/-- C2 (amended): the primary selection rule chooses the LAST section (highest
index in on-disk order) whose type is the static-symbol-table type, and
independently the LAST string-table-typed section whose index is not the
section-name string-table index (each match overwrites the previous
candidate); when a static symbol table exists the fallback loop is skipped,
so this is the pair `parseSymbols` reads from. -/
theorem claim_C2_amended (shdrs : List Elf64_Shdr) (ndx : Nat) :
    ((selectPrimary shdrs ndx).foundSym =
      shdrs.enum.any (fun p => decide (p.2.sh_type = 2))) ∧
    ((selectPrimary shdrs ndx).foundStr =
      shdrs.enum.any (fun p => decide (p.2.sh_type = 3 ∧ p.1 ≠ ndx))) ∧
    (∀ p, (shdrs.enum.filter (fun p => decide (p.2.sh_type = 2))).getLast? = some p →
      (selectPrimary shdrs ndx).symtab = p.2) ∧
    (∀ p, (shdrs.enum.filter
        (fun p => decide (p.2.sh_type = 3 ∧ p.1 ≠ ndx))).getLast? = some p →
      (selectPrimary shdrs ndx).strtab = p.2) ∧
    ((selectPrimary shdrs ndx).foundSym = true →
      selectPair shdrs ndx = selectPrimary shdrs ndx) := by
  refine ⟨(selectPrimary_found shdrs ndx).1, (selectPrimary_found shdrs ndx).2,
    ?_, ?_, ?_⟩
  · intro p hp
    rw [selectPrimary_symtab, hp]
  · intro p hp
    rw [selectPrimary_strtab, hp]
  · intro hfound
    unfold selectPair
    rw [if_pos hfound]

/-- C2 counterexample: with two static symbol tables (file offsets 100 and
200) and two qualifying string tables (offsets 300 and 400), the selection
chooses the second of each — not the first as the claim states. -/
theorem claim_C2_counterexample :
    (selectPrimary [⟨0, 2, 0, 0, 100, 0, 0, 0, 0, 0⟩, ⟨0, 3, 0, 0, 300, 0, 0, 0, 0, 0⟩,
        ⟨0, 2, 0, 0, 200, 0, 0, 0, 0, 0⟩, ⟨0, 3, 0, 0, 400, 0, 0, 0, 0, 0⟩] 9).foundSym
        = true ∧
    (selectPrimary [⟨0, 2, 0, 0, 100, 0, 0, 0, 0, 0⟩, ⟨0, 3, 0, 0, 300, 0, 0, 0, 0, 0⟩,
        ⟨0, 2, 0, 0, 200, 0, 0, 0, 0, 0⟩, ⟨0, 3, 0, 0, 400, 0, 0, 0, 0, 0⟩] 9).foundStr
        = true ∧
    (selectPrimary [⟨0, 2, 0, 0, 100, 0, 0, 0, 0, 0⟩, ⟨0, 3, 0, 0, 300, 0, 0, 0, 0, 0⟩,
        ⟨0, 2, 0, 0, 200, 0, 0, 0, 0, 0⟩, ⟨0, 3, 0, 0, 400, 0, 0, 0, 0, 0⟩] 9).symtab
        = ⟨0, 2, 0, 0, 200, 0, 0, 0, 0, 0⟩ ∧
    (⟨0, 2, 0, 0, 200, 0, 0, 0, 0, 0⟩ : Elf64_Shdr) ≠ ⟨0, 2, 0, 0, 100, 0, 0, 0, 0, 0⟩ ∧
    (selectPrimary [⟨0, 2, 0, 0, 100, 0, 0, 0, 0, 0⟩, ⟨0, 3, 0, 0, 300, 0, 0, 0, 0, 0⟩,
        ⟨0, 2, 0, 0, 200, 0, 0, 0, 0, 0⟩, ⟨0, 3, 0, 0, 400, 0, 0, 0, 0, 0⟩] 9).strtab
        = ⟨0, 3, 0, 0, 400, 0, 0, 0, 0, 0⟩ ∧
    (⟨0, 3, 0, 0, 400, 0, 0, 0, 0, 0⟩ : Elf64_Shdr) ≠ ⟨0, 3, 0, 0, 300, 0, 0, 0, 0, 0⟩ ∧
    selectPair [⟨0, 2, 0, 0, 100, 0, 0, 0, 0, 0⟩, ⟨0, 3, 0, 0, 300, 0, 0, 0, 0, 0⟩,
        ⟨0, 2, 0, 0, 200, 0, 0, 0, 0, 0⟩, ⟨0, 3, 0, 0, 400, 0, 0, 0, 0, 0⟩] 9
      = selectPrimary [⟨0, 2, 0, 0, 100, 0, 0, 0, 0, 0⟩, ⟨0, 3, 0, 0, 300, 0, 0, 0, 0, 0⟩,
        ⟨0, 2, 0, 0, 200, 0, 0, 0, 0, 0⟩, ⟨0, 3, 0, 0, 400, 0, 0, 0, 0, 0⟩] 9 := by
  decide

/-- C2 amended witness: the counterexample headers instantiate every part of
the amended statement. -/
theorem claim_C2_amended_witness :
    (selectPrimary [⟨0, 2, 0, 0, 100, 0, 0, 0, 0, 0⟩, ⟨0, 2, 0, 0, 200, 0, 0, 0, 0, 0⟩,
        ⟨0, 3, 0, 0, 300, 0, 0, 0, 0, 0⟩] 7).symtab = ⟨0, 2, 0, 0, 200, 0, 0, 0, 0, 0⟩ ∧
    (selectPrimary [⟨0, 2, 0, 0, 100, 0, 0, 0, 0, 0⟩, ⟨0, 2, 0, 0, 200, 0, 0, 0, 0, 0⟩,
        ⟨0, 3, 0, 0, 300, 0, 0, 0, 0, 0⟩] 7).strtab = ⟨0, 3, 0, 0, 300, 0, 0, 0, 0, 0⟩ ∧
    selectPair [⟨0, 2, 0, 0, 100, 0, 0, 0, 0, 0⟩, ⟨0, 2, 0, 0, 200, 0, 0, 0, 0, 0⟩,
        ⟨0, 3, 0, 0, 300, 0, 0, 0, 0, 0⟩] 7
      = selectPrimary [⟨0, 2, 0, 0, 100, 0, 0, 0, 0, 0⟩, ⟨0, 2, 0, 0, 200, 0, 0, 0, 0, 0⟩,
        ⟨0, 3, 0, 0, 300, 0, 0, 0, 0, 0⟩] 7 :=
  ⟨(claim_C2_amended _ 7).2.2.1 (1, ⟨0, 2, 0, 0, 200, 0, 0, 0, 0, 0⟩) (by decide),
   (claim_C2_amended _ 7).2.2.2.1 (2, ⟨0, 3, 0, 0, 300, 0, 0, 0, 0, 0⟩) (by decide),
   (claim_C2_amended _ 7).2.2.2.2 (by decide)⟩

/-- The failure-stage tracker of the parse tail reads `Symbols` when no
program headers are declared and `ProgramHeaders` otherwise. -/
theorem parseTail_stage (e : Elf64_Ehdr) (shdrs : List Elf64_Shdr) (shstrB : Bytes)
    (st' : Strm) :
    (parseTail e shdrs shstrB st').failureStage = ParseStage.Symbols ∨
    (parseTail e shdrs shstrB st').failureStage = ParseStage.ProgramHeaders := by
  unfold parseTail
  rcases parseSymbolsFn st' shdrs e with ⟨syms, st''⟩
  dsimp only
  by_cases hph : e.e_phoff ≠ 0 ∧ 0 < e.e_phnum
  · rw [if_pos hph]
    rcases readRecords (seekg st'' e.e_phoff) e.e_phnum 56 with ⟨_ | _, _⟩
    · exact Or.inr rfl
    · exact Or.inr rfl
  · rw [if_neg hph]
    exact Or.inl rfl

/-- Shape of the section-header-stage outcome. -/
theorem parseFromShdrs_shape (e : Elf64_Ehdr) (st : Strm) :
    parseFromShdrs e st = failState ParseStage.SectionHeaders ∨
    (parseFromShdrs e st).failureStage = ParseStage.Symbols ∨
    (parseFromShdrs e st).failureStage = ParseStage.ProgramHeaders := by
  unfold parseFromShdrs
  cases afterShdrs e st with
  | none => exact Or.inl rfl
  | some tr =>
    obtain ⟨shdrs, shstrB, st'⟩ := tr
    exact Or.inr (parseTail_stage e shdrs shstrB st')

/-- Shape of a parse outcome: an early failure state, or a state that reached
the symbol stage (whose failure stage is `Symbols` or `ProgramHeaders`). -/
theorem parse_shape (f : Bytes) :
    parse f = failState ParseStage.Header ∨
    parse f = failState ParseStage.SectionHeaders ∨
    (parse f).failureStage = ParseStage.Symbols ∨
    (parse f).failureStage = ParseStage.ProgramHeaders := by
  unfold parse
  cases afterHeader f with
  | none => exact Or.inl rfl
  | some est =>
    obtain ⟨e, st⟩ := est
    exact Or.inr (parseFromShdrs_shape e st)

/-- A parse that fails at the header or section-header stage returns before
anything was pushed into the section or symbol collections. -/
theorem parse_early_fail (f : Bytes)
    (hst : (parse f).failureStage = ParseStage.Header ∨
      (parse f).failureStage = ParseStage.SectionHeaders) :
    (parse f).sections = [] ∧ (parse f).symbols = [] := by
  rcases parse_shape f with h | h | h | h
  · rw [h]
    exact ⟨rfl, rfl⟩
  · rw [h]
    exact ⟨rfl, rfl⟩
  · simp [h] at hst
  · simp [h] at hst

/-- C3 (amended): on an object whose parse failed, metadata queries return a
record with all fields zero, and failures at the header or section-header
stages leave both `sections()` and `symbols()` empty; however a failure during
the program-header-table read happens after sections (and symbols) were
already populated, and `getSections()`/`getSymbols()` return those collections
unchanged even though the object is invalid. -/
theorem claim_C3_amended (f : Bytes) (hinv : (parse f).valid = false) :
    getMetadata (mkMiniELF f) = {} ∧
    (((parse f).failureStage = ParseStage.Header ∨
      (parse f).failureStage = ParseStage.SectionHeaders) →
      getSections (mkMiniELF f) = [] ∧ getSymbols (mkMiniELF f) = []) := by
  constructor
  · simp [getMetadata, isValid, mkMiniELF, hinv]
  · intro hst
    exact parse_early_fail f hst

/-- C3 counterexample: `fileB` fails its parse while reading the
program-header table (so `isValid()` is false), yet `getSections()` returns
the two already-parsed sections — not an empty collection as the claim
states. -/
theorem claim_C3_counterexample :
    (parse fileB).valid = false ∧ isValid (mkMiniELF fileB) = false ∧
    (parse fileB).failureStage = ParseStage.ProgramHeaders ∧
    getSections (mkMiniELF fileB) ≠ [] := by decide

/-- C3 amended witness: the empty file fails at the header stage with zeroed
metadata and empty collections. -/
theorem claim_C3_witness :
    getMetadata (mkMiniELF []) = {} ∧
    getSections (mkMiniELF []) = [] ∧ getSymbols (mkMiniELF []) = [] :=
  ⟨(claim_C3_amended [] (by decide)).1,
   (claim_C3_amended [] (by decide)).2 (Or.inl (by decide))⟩

/-- Validity of the parse tail: true exactly when either no program headers
are declared or their checked reads all succeed. -/
theorem parseTail_valid (e : Elf64_Ehdr) (shdrs : List Elf64_Shdr) (shstrB : Bytes)
    (st' : Strm) :
    (parseTail e shdrs shstrB st').valid = true ↔
      ((e.e_phoff ≠ 0 ∧ 0 < e.e_phnum) →
        (readRecords (seekg (parseSymbolsFn st' shdrs e).2 e.e_phoff)
          e.e_phnum 56).1.isSome = true) := by
  unfold parseTail
  rcases parseSymbolsFn st' shdrs e with ⟨syms, st''⟩
  dsimp only
  by_cases hph : e.e_phoff ≠ 0 ∧ 0 < e.e_phnum
  · rw [if_pos hph]
    rcases readRecords (seekg st'' e.e_phoff) e.e_phnum 56 with ⟨_ | _, _⟩ <;>
      simp [hph]
  · rw [if_neg hph]
    simp [hph]

/-- The parse tail leaves the symbol list empty when the selection heuristic
found no usable pair; its validity flag does not consult the selection. -/
theorem parseTail_symbols_empty (e : Elf64_Ehdr) (shdrs : List Elf64_Shdr)
    (shstrB : Bytes) (st' : Strm)
    (hmiss : (selectPair shdrs e.e_shstrndx).foundSym = false ∨
      (selectPair shdrs e.e_shstrndx).foundStr = false) :
    (parseTail e shdrs shstrB st').symbols = [] := by
  have hsel : parseSymbolsFn st' shdrs e = ([], st') := by
    unfold parseSymbolsFn
    rw [if_neg]
    rintro ⟨h1, h2⟩
    rcases hmiss with h | h
    · rw [h] at h1
      exact Bool.false_ne_true h1
    · rw [h] at h2
      exact Bool.false_ne_true h2
  unfold parseTail
  rw [hsel]
  dsimp only
  split
  · split <;> rfl
  · rfl

/-- C4: with the escape hatch off, `isValid()` is true exactly when the header
stage, the section-header stage (including the section-name string table) and
— when the header declares a non-zero program-header offset and a non-zero
program-header count — the program-header reads all succeed; a missing
{symbol table, string table} pair merely leaves `symbols()` empty and plays
no role in validity. -/
theorem claim_C4_validity (f : Bytes) :
    (isValid (mkMiniELF f) = true ↔
      ∃ e st shdrs shstrB st', afterHeader f = some (e, st) ∧
        afterShdrs e st = some (shdrs, shstrB, st') ∧
        ((e.e_phoff ≠ 0 ∧ 0 < e.e_phnum) →
          (readRecords (seekg (parseSymbolsFn st' shdrs e).2 e.e_phoff)
            e.e_phnum 56).1.isSome = true)) ∧
    (∀ e st shdrs shstrB st', afterHeader f = some (e, st) →
      afterShdrs e st = some (shdrs, shstrB, st') →
      ((selectPair shdrs e.e_shstrndx).foundSym = false ∨
        (selectPair shdrs e.e_shstrndx).foundStr = false) →
      (parse f).symbols = []) := by
  have hv : isValid (mkMiniELF f) = (parse f).valid := by
    simp [isValid, mkMiniELF]
  have hshdrs : ∀ (e : Elf64_Ehdr) (st : Strm),
      (parseFromShdrs e st).valid = true ↔
        ∃ shdrs shstrB st', afterShdrs e st = some (shdrs, shstrB, st') ∧
          ((e.e_phoff ≠ 0 ∧ 0 < e.e_phnum) →
            (readRecords (seekg (parseSymbolsFn st' shdrs e).2 e.e_phoff)
              e.e_phnum 56).1.isSome = true) := by
    intro e st
    unfold parseFromShdrs
    cases h2 : afterShdrs e st with
    | none =>
      constructor
      · intro h
        exact Bool.noConfusion h
      · rintro ⟨shdrs, shstrB, st', hs, -⟩
        exact Option.noConfusion hs
    | some tr =>
      obtain ⟨shdrs, shstrB, st'⟩ := tr
      constructor
      · intro hc
        exact ⟨shdrs, shstrB, st', rfl, (parseTail_valid e shdrs shstrB st').mp hc⟩
      · rintro ⟨a, b, c, hs, hc⟩
        have heq := Option.some.inj hs
        simp only [Prod.mk.injEq] at heq
        obtain ⟨rfl, rfl, rfl⟩ := heq
        exact (parseTail_valid _ _ _ _).mpr hc
  constructor
  · rw [hv]
    unfold parse
    cases h1 : afterHeader f with
    | none =>
      constructor
      · intro h
        exact Bool.noConfusion h
      · rintro ⟨e, st, shdrs, shstrB, st', he, -, -⟩
        exact Option.noConfusion he
    | some est =>
      obtain ⟨e, st⟩ := est
      rw [hshdrs e st]
      constructor
      · rintro ⟨shdrs, shstrB, st', hs, hc⟩
        exact ⟨e, st, shdrs, shstrB, st', rfl, hs, hc⟩
      · rintro ⟨e', st2, shdrs, shstrB, st', he, hs, hc⟩
        have heq := Option.some.inj he
        simp only [Prod.mk.injEq] at heq
        obtain ⟨rfl, rfl⟩ := heq
        exact ⟨shdrs, shstrB, st', hs, hc⟩
  · intro e st shdrs shstrB st' h1 h2 hmiss
    have hp : parse f = parseTail e shdrs shstrB st' := by
      unfold parse
      rw [h1]
      show parseFromShdrs e st = _
      unfold parseFromShdrs
      rw [h2]
    rw [hp]
    exact parseTail_symbols_empty e shdrs shstrB st' hmiss

set_option maxRecDepth 8000 in
/-- C4 witness: `fileA` is valid, so the stage reads all succeeded; `fileB`
(no symbol-table pair) still reaches the symbol stage with an empty symbol
list. -/
theorem claim_C4_witness :
    (∃ e st shdrs shstrB st', afterHeader fileA = some (e, st) ∧
      afterShdrs e st = some (shdrs, shstrB, st') ∧
      ((e.e_phoff ≠ 0 ∧ 0 < e.e_phnum) →
        (readRecords (seekg (parseSymbolsFn st' shdrs e).2 e.e_phoff)
          e.e_phnum 56).1.isSome = true)) ∧
    (parse fileB).symbols = [] := by
  constructor
  · exact (claim_C4_validity fileA).1.mp (by decide)
  · exact (claim_C4_validity fileB).2 (decodeEhdr (fileB.take 64)) ⟨fileB, 64, false⟩
      [decodeShdr (mkShdrBytes 0 0 0 0 0 0 0 0 0 0),
        decodeShdr (mkShdrBytes 1 3 0 0 192 27 0 0 0 0)] shstrBlob
      ⟨fileB, 219, false⟩ (by decide) (by decide) (by decide)

end MiniELF
